import Mathlib

/-!
Verification of the CommonCodes description markup module
(`src/description.ts`): the data model (text spans, command spans,
paragraphs, lists, documents), the serializers, the inline scanner, the
span optimizer and the block parser, shallowly embedded as executable
Lean functions, together with theorems settling the specification
claims.

Conventions of the embedding:
* JavaScript strings are modelled as Lean `String` / `List Char`.
* Fallible code (TypeScript `throw`) is modelled with `Except Err`.
* The character class of the JavaScript regex `\s` is modelled by
  `isJsWhitespace`.
* The inline scanner loop advances a variable number of characters per
  iteration (the command-token and whitespace sub-loops), so its Lean
  embedding `scanAux` carries a fuel argument to stay structurally
  recursive; `parseInlineElementes` supplies `length + 1` fuel, which
  is always sufficient (the scanner consumes at least one character
  per recursive call), so the `fuelExhausted` branch is unreachable.
-/

/-- Error kinds raised by `description.ts`.  The first four correspond to
the `Exception` messages in the source; `typeError` models the JavaScript
`TypeError` that member access on `undefined` would raise (reachable only
from states the block parser never produces); `fuelExhausted` is an
artifact of the fuel encoding of the scanner loop and is never produced
when the fuel exceeds the input length. -/
inductive Err : Type
  | multipleLineBreaks
  | bracesWithoutCommand
  | unknownCommand (command : String)
  | unclosedCommand
  | typeError
  | fuelExhausted
deriving DecidableEq

/-- The character class of the JavaScript regex `\s` (whitespace),
used by `String.prototype.replace(/\s+/g, ...)`, by the scanner tests
`str[i].match(/^\s$/)`, and by `String.prototype.trim`. -/
def isJsWhitespace (c : Char) : Bool :=
  c == ' ' || c == '\t' || c == '\n' || c == '\r' || c == '\x0B' || c == '\x0C' ||
  c.toNat == 0x00A0 || c.toNat == 0x1680 ||
  (Nat.ble 0x2000 c.toNat && Nat.ble c.toNat 0x200A) ||
  c.toNat == 0x2028 || c.toNat == 0x2029 || c.toNat == 0x202F ||
  c.toNat == 0x205F || c.toNat == 0x3000 || c.toNat == 0xFEFF

/-- Predicate `hasDoubleNl l` holds when `l` contains two consecutive line-feed
characters; embeds `text.includes("\n\n")` from the `TextSpan`
constructor. -/
def hasDoubleNl : List Char → Bool
  | [] => false
  | [_] => false
  | a :: b :: rest => (a == '\n' && b == '\n') || hasDoubleNl (b :: rest)

/-- Embeds `text.replace(/\s+/g, (substring) => (substring[0]))` from the
`TextSpan` constructor: every maximal run of whitespace characters is
replaced by the first character of the run.  The boolean argument records
whether the previous character was whitespace (that is, whether the scan
is inside a run whose first character has already been emitted). -/
def collapseWsAux : List Char → Bool → List Char
  | [], _ => []
  | c :: rest, inRun =>
    if isJsWhitespace c then
      if inRun then collapseWsAux rest true
      else c :: collapseWsAux rest true
    else c :: collapseWsAux rest false

/-- `DescriptionInlineElement.TextSpan`: holds the normalized text. -/
structure TextSpan : Type where
  text : String
deriving DecidableEq

/-- Embeds the `TextSpan` constructor (`new TextSpan(text)`): first the
check `if (text.includes("\n\n")) throw`, then the whitespace
compression `text.replace(/\s+/g, (substring) => (substring[0]))`. -/
def TextSpan.new (text : String) : Except Err TextSpan :=
  if hasDoubleNl text.data then .error .multipleLineBreaks
  else .ok ⟨String.mk (collapseWsAux text.data false)⟩

/-- Method `TextSpan.toString()`: returns the stored text verbatim. -/
def TextSpan.toStr (ts : TextSpan) : String := ts.text

/-- Enumeration `DescriptionInlineElement.CommandSpan.Type`: the fixed catalog of
command kinds, in catalog (ordinal) order. -/
inductive CommandSpanType : Type
  | EMPHASIS
  | STRONG_EMPHASIS
  | PROPER_NAME
  | CODE
  | MESSAGE
  | MESSAGE_PLACEHOLDER
  | CURLY_BRACE_OPEN
  | CURLY_BRACE_CLOSED
deriving DecidableEq

/-- Method `Type.getCommands()`: the alias tokens of each catalog entry, first
alias canonical, exactly as in the `Type` static initializers. -/
def CommandSpanType.getCommands : CommandSpanType → List String
  | .EMPHASIS => ["e"]
  | .STRONG_EMPHASIS => ["s"]
  | .PROPER_NAME => ["p"]
  | .CODE => ["c"]
  | .MESSAGE => ["m"]
  | .MESSAGE_PLACEHOLDER => ["mp"]
  | .CURLY_BRACE_OPEN => ["cb", "cbo"]
  | .CURLY_BRACE_CLOSED => ["cbc"]

/-- Field `Type._values`: the catalog in definition (push) order. -/
def CommandSpanType.values : List CommandSpanType :=
  [.EMPHASIS, .STRONG_EMPHASIS, .PROPER_NAME, .CODE, .MESSAGE,
   .MESSAGE_PLACEHOLDER, .CURLY_BRACE_OPEN, .CURLY_BRACE_CLOSED]

/-- Method `Type.fromCommand(command)`: scan the catalog in definition order,
return the first entry one of whose aliases equals the token. -/
def CommandSpanType.fromCommand (command : String) : Option CommandSpanType :=
  CommandSpanType.values.find? (fun value => value.getCommands.contains command)

/-- Type `DescriptionInlineElement`: a text span or a command span (a command
type paired with exactly one text span of content). -/
inductive DescriptionInlineElement : Type
  | textSpan (textSpan : TextSpan)
  | commandSpan (type : CommandSpanType) (textSpan : TextSpan)
deriving DecidableEq

/-- Embeds the escaping step of `CommandSpan.toString()`:
`text.replace(/^[\\{}]$/g, s => "\\" + s)` — because of the `^`/`$`
anchors the regex matches only when the whole content is a single
backslash or brace, in which case a backslash is prefixed. -/
def escapeContent (s : String) : String :=
  match s.data with
  | [c] => if c = '\\' ∨ c = '{' ∨ c = '}' then String.mk ['\\', c] else s
  | _ => s

/-- Method `CommandSpan.toString()`: open brace, first alias of the type, then —
only when the escaped content is non-empty — a space and the escaped
content, then a close brace. -/
def commandSpanToString (type : CommandSpanType) (textSpan : TextSpan) : String :=
  let str := "\x7b" ++ type.getCommands.headD ""
  let escapedText := escapeContent textSpan.text
  (if escapedText ≠ "" then str ++ " " ++ escapedText else str) ++ "\x7d"

/-- Serialization of an inline element (dispatch of `toString()`). -/
def DescriptionInlineElement.toStr : DescriptionInlineElement → String
  | .textSpan ts => ts.toStr
  | .commandSpan t ts => commandSpanToString t ts

/-- Expression `elements.join("")`: concatenation of the serializations of an
inline sequence. -/
def joinInline (elements : List DescriptionInlineElement) : String :=
  String.join (elements.map DescriptionInlineElement.toStr)

/-- Embeds `str.replace(/\n/, "\n  ")` from `List.toString()`: the regex
has no `g` flag, so only the first line feed is replaced. -/
def replaceFirstNl : List Char → List Char
  | [] => []
  | c :: rest =>
    if c = '\n' then c :: ' ' :: ' ' :: rest
    else c :: replaceFirstNl rest

/-- Inductive `DescriptionBlockElement`: a paragraph (an inline sequence)
or a list (a sequence of items, each an inline sequence). -/
inductive DescriptionBlockElement : Type
  | paragraph (elements : List DescriptionInlineElement)
  | list (items : List (List DescriptionInlineElement))
deriving DecidableEq

/-- Method `Paragraph.toString()`: a line break, the joined inline
serializations, and a trailing line break. -/
def paragraphToString (elements : List DescriptionInlineElement) : String :=
  "\n" ++ joinInline elements ++ "\n"

/-- Method `List.toString()`: builds `"* " + items[0]...` for the first
item, then appends `"\n* " + items[i]...` for each further item (each
item joined and passed through the first-line-feed replacement), and
wraps the whole in a leading and a trailing line break. -/
def listToString (items : List (List DescriptionInlineElement)) : String :=
  match items.map (fun item => "* " ++ String.mk (replaceFirstNl (joinInline item).data)) with
  | [] => "\n" ++ "" ++ "\n"
  | s :: rest => "\n" ++ rest.foldl (fun str x => str ++ "\n" ++ x) s ++ "\n"

/-- Serialization of a block element (dispatch of `toString()`). -/
def DescriptionBlockElement.toStr : DescriptionBlockElement → String
  | .paragraph elements => paragraphToString elements
  | .list items => listToString items

/-- Embeds `String.prototype.trim`: remove leading and trailing
whitespace characters. -/
def jsTrim (l : List Char) : List Char :=
  ((l.dropWhile isJsWhitespace).reverse.dropWhile isJsWhitespace).reverse

/-- Class `Description`: an ordered sequence of block elements. -/
structure Description : Type where
  elements : List DescriptionBlockElement
deriving DecidableEq

/-- Method `Description.toString()`: `this.elements.join("").trim()`. -/
def Description.toStr (d : Description) : String :=
  String.mk (jsTrim (String.join (d.elements.map DescriptionBlockElement.toStr)).data)

/-- Character test of the command-token sub-loop of
`parseInlineElementes`: the token extends while the character is neither
whitespace nor a close brace. -/
def tokenChar (c : Char) : Bool := !(isJsWhitespace c) && c != '}'

/-- Helper `pushTextSpan()` of `parseInlineElementes`: if the pending
text buffer is non-empty, construct a `TextSpan` from it (which may
fail) and append it. -/
def pushTextSpan (text : String) (elements : List DescriptionInlineElement) :
    Except Err (List DescriptionInlineElement) :=
  if text = "" then .ok elements
  else do
    let ts ← TextSpan.new text
    .ok (elements ++ [.textSpan ts])

/-- The scanner loop of `parseInlineElementes`, one recursive call per
loop iteration.  Arguments: remaining input, current command type
(`null` = plain state), pending text buffer, elements emitted so far.
The fuel argument only makes the recursion structural; each iteration
consumes at least one character, so `length + 1` fuel never runs out.
Branches, in source order: an open brace in plain state reads the
command token (`takeWhile`/`dropWhile` embed the inner `for` loop),
rejects an empty token, skips whitespace, resolves the token; inside a
command a close brace emits the span, a backslash followed by an
escapable character appends that character and advances two positions;
otherwise the character is appended to the buffer.  At end of input a
still-open command is rejected, otherwise the buffer is flushed. -/
def scanAux : Nat → List Char → Option CommandSpanType → String →
    List DescriptionInlineElement → Except Err (List DescriptionInlineElement)
  | 0, _, _, _, _ => .error .fuelExhausted
  | _ + 1, [], commandType, text, elements =>
    match commandType with
    | some _ => .error .unclosedCommand
    | none => pushTextSpan text elements
  | fuel + 1, c :: rest, commandType, text, elements =>
    if commandType = none ∧ c = '{' then
      match pushTextSpan text elements with
      | .error e => .error e
      | .ok elements =>
        let commandStr := rest.takeWhile tokenChar
        let rest := rest.dropWhile tokenChar
        if commandStr.isEmpty then .error .bracesWithoutCommand
        else
          let rest := rest.dropWhile isJsWhitespace
          match CommandSpanType.fromCommand (String.mk commandStr) with
          | none => .error (.unknownCommand (String.mk commandStr))
          | some ty => scanAux fuel rest (some ty) "" elements
    else
      match commandType with
      | some ty =>
        if c = '}' then
          match TextSpan.new text with
          | .error e => .error e
          | .ok ts => scanAux fuel rest none "" (elements ++ [.commandSpan ty ts])
        else
          match rest with
          | escChar :: rest2 =>
            if c = '\\' ∧ (escChar = '\\' ∨ escChar = '{' ∨ escChar = '}') then
              scanAux fuel rest2 (some ty) (text.push escChar) elements
            else
              scanAux fuel rest (some ty) (text.push c) elements
          | [] => scanAux fuel rest (some ty) (text.push c) elements
      | none => scanAux fuel rest none (text.push c) elements

/-- Function `parseInlineElementes(str)`: run the scanner over the whole
line, starting in plain state with empty buffer. -/
def parseInlineElementes (str : String) : Except Err (List DescriptionInlineElement) :=
  scanAux (str.data.length + 1) str.data none "" []

/-- One iteration of the `forEach` of `optimizeElements(elements)`:
with an empty accumulator the element is pushed unconditionally;
otherwise a non-empty text span merges into a trailing text span
through the `TextSpan` constructor (which re-normalizes the
concatenation and may fail), an empty text span is skipped, and
anything else is pushed. -/
def optimizeStep (optimizedElements : List DescriptionInlineElement)
    (element : DescriptionInlineElement) : Except Err (List DescriptionInlineElement) :=
  match optimizedElements.getLast? with
  | none => .ok [element]
  | some lastOptimizedElement =>
    match element with
    | .textSpan ts =>
      if ts.text ≠ "" then
        match lastOptimizedElement with
        | .textSpan lastTs =>
          match TextSpan.new (lastTs.text ++ ts.text) with
          | .error e => .error e
          | .ok merged => .ok (optimizedElements.dropLast ++ [.textSpan merged])
        | .commandSpan _ _ => .ok (optimizedElements ++ [element])
      else .ok optimizedElements
    | .commandSpan _ _ => .ok (optimizedElements ++ [element])

/-- Function `optimizeElements(elements)`: the `forEach` accumulation
over the optimized array, one `optimizeStep` per input element. -/
def optimizeElements (elements : List DescriptionInlineElement) :
    Except Err (List DescriptionInlineElement) :=
  elements.foldlM optimizeStep []

/-- Collapse a pending run of `n` line feeds as the regex
`/\n{3,}/g → "\n\n"` does: a run of three or more becomes exactly two,
shorter runs are kept. -/
def emitNl (n : Nat) : List Char :=
  if 3 ≤ n then ['\n', '\n'] else List.replicate n '\n'

/-- Embeds `str.replace(/\n{3,}/g, "\n\n")`: walk the text counting the
current run of line feeds, flushing each maximal run through `emitNl`. -/
def collapseNl : List Char → Nat → List Char
  | [], n => emitNl n
  | '\n' :: rest, n => collapseNl rest (n + 1)
  | c :: rest, n => emitNl n ++ (c :: collapseNl rest 0)

/-- Embeds `str.split("\n\n")`: split at each occurrence of two
consecutive line feeds, leftmost first, non-overlapping. -/
def splitNlNl : List Char → List (List Char)
  | [] => [[]]
  | '\n' :: '\n' :: rest => [] :: splitNlNl rest
  | c :: rest =>
    match splitNlNl rest with
    | [] => [[c]]
    | chunk :: chunks => (c :: chunk) :: chunks

/-- Embeds `block.split("\n")`: split at each line feed. -/
def splitNl : List Char → List (List Char)
  | [] => [[]]
  | '\n' :: rest => [] :: splitNl rest
  | c :: rest =>
    match splitNl rest with
    | [] => [[c]]
    | line :: lines => (c :: line) :: lines

/-- Mutable local state of `parseDescription`: the open paragraph
accumulator, the open list accumulator, and the block elements flushed
so far. -/
structure BlockState : Type where
  paragraphElements : Option (List DescriptionInlineElement)
  listItems : Option (List (List DescriptionInlineElement))
  blocks : List DescriptionBlockElement
deriving DecidableEq

/-- Helper `pushParagraphElements()` of `parseDescription`: flush an
open paragraph accumulator (optimizing its elements) into the block
sequence. -/
def pushParagraphElements (st : BlockState) : Except Err BlockState :=
  match st.paragraphElements with
  | none => .ok st
  | some elements =>
    match optimizeElements elements with
    | .error e => .error e
    | .ok optimized =>
      .ok ⟨none, st.listItems, st.blocks ++ [.paragraph optimized]⟩

/-- Helper `pushListItems()` of `parseDescription`: flush an open list
accumulator (optimizing each item) into the block sequence. -/
def pushListItems (st : BlockState) : Except Err BlockState :=
  match st.listItems with
  | none => .ok st
  | some items =>
    match items.mapM optimizeElements with
    | .error e => .error e
    | .ok optimizedItems =>
      .ok ⟨st.paragraphElements, none, st.blocks ++ [.list optimizedItems]⟩

/-- The per-line classifier of `parseDescription` (the body of
`block.split("\n").forEach`).  In source order: a line starting with
an asterisk and a space closes any open paragraph and appends a new
list item; otherwise, with a list open, a line starting with two spaces
continues the last item of that list, inserting a line-break text span
first when that item is non-empty and the line does not start with
three spaces; any other line closes any open list and continues (or
opens) a paragraph, inserting a line-break text span first when the
paragraph is non-empty and the line does not start with a space. -/
def processLine (st : BlockState) (line : List Char) : Except Err BlockState :=
  if ['*', ' '].isPrefixOf line then
    match pushParagraphElements st with
    | .error e => .error e
    | .ok st =>
      let items := st.listItems.getD []
      match parseInlineElementes (String.mk (line.drop 2)) with
      | .error e => .error e
      | .ok parsed => .ok ⟨st.paragraphElements, some (items ++ [[] ++ parsed]), st.blocks⟩
  else if st.listItems.isSome ∧ [' ', ' '].isPrefixOf line then
    match st.listItems with
    | none => .error .typeError
    | some items =>
      match items.getLast? with
      | none => .error .typeError
      | some lastItem =>
        match (if 0 < lastItem.length ∧ ¬ [' ', ' ', ' '].isPrefixOf line then
                 (TextSpan.new "\n").map (fun nl => lastItem ++ [.textSpan nl])
               else .ok lastItem) with
        | .error e => .error e
        | .ok lastItem =>
          match parseInlineElementes (String.mk (line.drop 2)) with
          | .error e => .error e
          | .ok parsed =>
            .ok ⟨st.paragraphElements, some (items.dropLast ++ [lastItem ++ parsed]), st.blocks⟩
  else
    match pushListItems st with
    | .error e => .error e
    | .ok st =>
      let elements := st.paragraphElements.getD []
      match (if 0 < elements.length ∧ ¬ [' '].isPrefixOf line then
               (TextSpan.new "\n").map (fun nl => elements ++ [.textSpan nl])
             else .ok elements) with
      | .error e => .error e
      | .ok elements =>
        match parseInlineElementes (String.mk line) with
        | .error e => .error e
        | .ok parsed => .ok ⟨some (elements ++ parsed), st.listItems, st.blocks⟩

/-- One chunk of the chunk loop of `parseDescription`: walk the chunk
line by line with `processLine` starting from closed accumulators, then
flush the open paragraph and then the open list at chunk end (in that
source order). -/
def parseChunk (blocks : List DescriptionBlockElement) (chunk : List Char) :
    Except Err (List DescriptionBlockElement) :=
  match (splitNl chunk).foldlM processLine ⟨none, none, blocks⟩ with
  | .error e => .error e
  | .ok st =>
    match pushParagraphElements st with
    | .error e => .error e
    | .ok st =>
      match pushListItems st with
      | .error e => .error e
      | .ok st => .ok st.blocks

/-- Function `parseDescription(str)`: trim the input, normalize blank
lines, split into chunks at blank lines, process each chunk, and wrap
the accumulated blocks in a `Description`. -/
def parseDescription (str : String) : Except Err Description :=
  let chars := collapseNl (jsTrim str.data) 0
  match (splitNlNl chars).foldlM parseChunk [] with
  | .error e => .error e
  | .ok blocks => .ok ⟨blocks⟩

/-- Specification-side statement of the canonical (first) alias of each
command type, spelled out per entry as the spec lists them. -/
def canonicalAlias : CommandSpanType → String
  | .EMPHASIS => "e"
  | .STRONG_EMPHASIS => "s"
  | .PROPER_NAME => "p"
  | .CODE => "c"
  | .MESSAGE => "m"
  | .MESSAGE_PLACEHOLDER => "mp"
  | .CURLY_BRACE_OPEN => "cb"
  | .CURLY_BRACE_CLOSED => "cbc"

/-- Specification-side statement of the escaping rule: the content is
prefixed with a backslash exactly when the entire content is the
one-character string backslash, open brace or close brace. -/
def escapeSpec (s : String) : String :=
  if s = "\\" ∨ s = "\x7b" ∨ s = "\x7d" then "\\" ++ s else s

/-- Specification-side whitespace collapsing, following the spec words
directly: a whitespace character is dropped exactly when the character
immediately preceding it in the original text is also whitespace, so
each maximal whitespace run keeps only its first character.  `prev` is
the preceding character of the original text. -/
def collapseRunsGo (prev : Char) : List Char → List Char
  | [] => []
  | c :: rest =>
    if isJsWhitespace prev && isJsWhitespace c then collapseRunsGo c rest
    else c :: collapseRunsGo c rest

/-- Specification-side whitespace collapsing of a whole text: the first
character is always kept, the rest is filtered by `collapseRunsGo`. -/
def collapseRunsSpec : List Char → List Char
  | [] => []
  | c :: rest => c :: collapseRunsGo c rest

theorem collapseWsAux_eq_go (l : List Char) :
    ∀ prev : Char, collapseWsAux l (isJsWhitespace prev) = collapseRunsGo prev l := by
  induction l with
  | nil => intro prev; rfl
  | cons c rest ih =>
    intro prev
    by_cases hc : isJsWhitespace c
    · by_cases hp : isJsWhitespace prev
      · simp [collapseWsAux, collapseRunsGo, hc, hp, ← ih c]
      · simp [collapseWsAux, collapseRunsGo, hc, hp, ← ih c]
    · by_cases hp : isJsWhitespace prev
      · simp [collapseWsAux, collapseRunsGo, hc, hp, ← ih c]
      · simp [collapseWsAux, collapseRunsGo, hc, hp, ← ih c]

theorem collapseWsAux_eq_spec (l : List Char) :
    collapseWsAux l false = collapseRunsSpec l := by
  cases l with
  | nil => rfl
  | cons c rest =>
    by_cases hc : isJsWhitespace c
    · simp [collapseWsAux, collapseRunsSpec, hc, ← collapseWsAux_eq_go rest c]
    · simp [collapseWsAux, collapseRunsSpec, hc, ← collapseWsAux_eq_go rest c]

theorem mk_single_eq_iff (c d : Char) : String.mk [c] = String.mk [d] ↔ c = d := by
  simp [String.ext_iff]

theorem escapeContent_eq (s : String) : escapeContent s = escapeSpec s := by
  obtain ⟨data⟩ := s
  have hbs : ("\\" : String) = String.mk ['\\'] := rfl
  have hob : ("\x7b" : String) = String.mk ['{'] := rfl
  have hcb : ("\x7d" : String) = String.mk ['}'] := rfl
  rcases data with _ | ⟨c, _ | ⟨d, rest⟩⟩
  · simp [escapeContent, escapeSpec, hbs, hob, hcb, String.ext_iff]
  · have hcond : ((String.mk [c] = "\\" ∨ String.mk [c] = "\x7b" ∨ String.mk [c] = "\x7d"))
        ↔ (c = '\\' ∨ c = '{' ∨ c = '}') := by
      rw [hbs, hob, hcb, mk_single_eq_iff, mk_single_eq_iff, mk_single_eq_iff]
    by_cases hc : c = '\\' ∨ c = '{' ∨ c = '}'
    · have h1 : escapeContent (String.mk [c]) = String.mk ['\\', c] := by
        simp [escapeContent, hc]
      have h2 : escapeSpec (String.mk [c]) = String.mk ['\\', c] := by
        unfold escapeSpec
        rw [if_pos (hcond.mpr hc)]
        rfl
      rw [h1, h2]
    · have h1 : escapeContent (String.mk [c]) = String.mk [c] := by
        simp [escapeContent, hc]
      have h2 : escapeSpec (String.mk [c]) = String.mk [c] := by
        unfold escapeSpec
        rw [if_neg (fun h => hc (hcond.mp h))]
      rw [h1, h2]
  · have h1 : escapeContent (String.mk (c :: d :: rest)) = String.mk (c :: d :: rest) := rfl
    have h2 : escapeSpec (String.mk (c :: d :: rest)) = String.mk (c :: d :: rest) := by
      unfold escapeSpec
      rw [if_neg]
      intro h
      rcases h with h | h | h <;> rw [String.ext_iff] at h <;> simp_all
    rw [h1, h2]

theorem escapeSpec_empty_iff (s : String) : escapeSpec s = "" ↔ s = "" := by
  unfold escapeSpec
  split
  · constructor
    · intro h
      rw [String.ext_iff, String.data_append] at h
      simp at h
    · rintro rfl
      next hor =>
        rcases hor with h | h | h <;> rw [String.ext_iff] at h <;> simp at h
  · exact Iff.rfl

deriving instance DecidableEq for Except

/-- Claim C1: for every CommandSpan, serialization produces an open
brace, the first (canonical) alias of its type, then — only if the
content text is non-empty — a single space plus the (possibly escaped)
content, then a close brace; the content is prefixed with a backslash
exactly when the entire content is the one-character string backslash,
open brace or close brace, so such characters inside longer content are
emitted unescaped: a CODE span with content a lone backslash serializes
to open brace, c, space, double backslash, close brace, while a CODE
span with content a-backslash-b keeps its interior backslash
unescaped. -/
theorem commandSpan_toString_spec :
    (∀ (t : CommandSpanType) (ts : TextSpan),
      commandSpanToString t ts =
        "\x7b" ++ canonicalAlias t ++
          (if ts.text = "" then "" else " " ++ escapeSpec ts.text) ++ "\x7d") ∧
    commandSpanToString .CODE ⟨"\\"⟩ = "\x7bc \\\\\x7d" ∧
    commandSpanToString .CODE ⟨"a\\b"⟩ = "\x7bc a\\b\x7d" := by
  refine ⟨?_, by decide, by decide⟩
  intro t ts
  have halias : t.getCommands.headD "" = canonicalAlias t := by
    cases t <;> rfl
  simp only [commandSpanToString, escapeContent_eq, halias]
  by_cases h : ts.text = ""
  · rw [h]
    have hesc : escapeSpec "" = "" := by decide
    rw [hesc]
    simp
  · have h2 : escapeSpec ts.text ≠ "" := fun hh => h ((escapeSpec_empty_iff _).mp hh)
    rw [if_pos h2, if_neg h]
    rw [String.ext_iff]
    simp [String.data_append]

/-- Claim C4, counterexample: the claimed first example is wrong on the
code: a TextSpan built from the text a, three spaces, b, tab, c stores
the text a-space-b-tab-c (the tab run collapses to the tab itself), not
a-space-b-space-c as the claim states. -/
theorem textSpan_tab_run_counterexample :
    TextSpan.new "a   b\tc" = .ok ⟨"a b\tc"⟩ ∧
    TextSpan.new "a   b\tc" ≠ .ok ⟨"a b c"⟩ := by
  constructor
  · decide
  · decide

/-- Claim C4 (amended): for every input string accepted by the TextSpan
constructor, the stored text is the input with every maximal run of
whitespace characters replaced by that run's first character (a
whitespace character is dropped exactly when the preceding character of
the original text is also whitespace); in particular the first example
yields a-space-b-tab-c (the tab that starts the second run is
preserved, so the result is not a-space-b-space-c), and the second
example yields a-tab-b. -/
theorem textSpan_collapse_spec :
    (∀ (s : String) (ts : TextSpan), TextSpan.new s = .ok ts →
      ts.text.data = collapseRunsSpec s.data) ∧
    TextSpan.new "a   b\tc" = .ok ⟨"a b\tc"⟩ ∧
    TextSpan.new "a\t\tb" = .ok ⟨"a\tb"⟩ := by
  refine ⟨?_, by decide, by decide⟩
  intro s ts h
  unfold TextSpan.new at h
  split at h
  · exact absurd h (by simp)
  · injection h with h2
    rw [← h2, ← collapseWsAux_eq_spec]

/-- Witness for the amended claim C4 at a concrete input. -/
theorem textSpan_collapse_spec_witness :
    TextSpan.new "x  y" = .ok ⟨"x y"⟩ ∧ ("x y" : String).data = collapseRunsSpec ("x  y" : String).data :=
  ⟨by decide, textSpan_collapse_spec.1 "x  y" ⟨"x y"⟩ (by decide)⟩

theorem hasDoubleNl_iff (l : List Char) :
    hasDoubleNl l = true ↔ List.IsInfix ['\n', '\n'] l := by
  induction l with
  | nil =>
    constructor
    · intro h
      simp [hasDoubleNl] at h
    · intro h
      have := h.length_le
      simp at this
  | cons a rest ih =>
    cases rest with
    | nil =>
      simp only [hasDoubleNl]
      constructor
      · intro h
        exact absurd h (by simp)
      · intro h
        have := h.length_le
        simp at this
    | cons b rest2 =>
      simp only [hasDoubleNl, Bool.or_eq_true, Bool.and_eq_true, beq_iff_eq]
      constructor
      · rintro (⟨rfl, rfl⟩ | h)
        · exact ⟨[], rest2, rfl⟩
        · exact List.infix_cons (ih.mp h)
      · rintro ⟨s, t, heq⟩
        cases s with
        | nil =>
          simp only [List.nil_append, List.cons_append] at heq
          injection heq with h1 h2
          injection h2 with h3 h4
          exact Or.inl ⟨h1.symm, h3.symm⟩
        | cons x s2 =>
          simp only [List.cons_append] at heq
          injection heq with h1 h2
          exact Or.inr (ih.mpr ⟨s2, t, h2⟩)

/-- Claim C5: constructing a TextSpan fails with the multiple-line-break
error exactly when the input contains two consecutive line-feed
characters (the check runs on the raw input, before whitespace
collapsing, and is the constructor's only failure, so it applies to
every caller); in particular the input line1, two line feeds, line2 is
rejected with that error. -/
theorem textSpan_double_break_iff :
    (∀ s : String, TextSpan.new s = .error .multipleLineBreaks ↔
      List.IsInfix ['\n', '\n'] s.data) ∧
    TextSpan.new "line1\n\nline2" = .error .multipleLineBreaks := by
  refine ⟨?_, by decide⟩
  intro s
  rw [← hasDoubleNl_iff]
  unfold TextSpan.new
  constructor
  · intro h
    by_contra hfalse
    rw [Bool.not_eq_true] at hfalse
    rw [if_neg (by simp [hfalse])] at h
    exact absurd h (by simp)
  · intro h
    rw [if_pos h]

/-- Witness for claim C5 at a concrete input, in both directions of the
equivalence. -/
theorem textSpan_double_break_iff_witness :
    TextSpan.new "x\n\ny" = .error .multipleLineBreaks :=
  (textSpan_double_break_iff.1 "x\n\ny").mpr ⟨['x'], ['y'], by decide⟩

/-- Specification-side indentation of the first line break of a list
item: when the text contains a line feed, two spaces are inserted right
after the first one; the text is otherwise returned unchanged. -/
def indentFirstBreakSpec (s : String) : String :=
  if '\n' ∈ s.data then
    String.mk (s.data.takeWhile (fun c => c != '\n')) ++ "\n  " ++
      String.mk ((s.data.dropWhile (fun c => c != '\n')).drop 1)
  else s

/-- Specification-side joining of the item lines with single line
feeds. -/
def intercalateNl : List String → String
  | [] => ""
  | [s] => s
  | s :: t :: rest => s ++ "\n" ++ intercalateNl (t :: rest)

theorem replaceFirstNl_eq_spec_list (l : List Char) :
    replaceFirstNl l =
      if '\n' ∈ l then
        l.takeWhile (fun c => c != '\n') ++ '\n' :: ' ' :: ' ' ::
          ((l.dropWhile (fun c => c != '\n')).drop 1)
      else l := by
  induction l with
  | nil => simp [replaceFirstNl]
  | cons c rest ih =>
    by_cases hc : c = '\n'
    · subst hc
      simp [replaceFirstNl]
    · by_cases hm : '\n' ∈ rest
      · rw [replaceFirstNl, if_neg hc, ih, if_pos hm,
          if_pos (by simp [hm]),
          List.takeWhile_cons_of_pos (by simp [hc]),
          List.dropWhile_cons_of_pos (by simp [hc])]
        simp
      · rw [replaceFirstNl, if_neg hc, ih, if_neg hm, if_neg (by simp [hm, Ne.symm hc])]

theorem replaceFirstNl_eq_spec (s : String) :
    String.mk (replaceFirstNl s.data) = indentFirstBreakSpec s := by
  rw [replaceFirstNl_eq_spec_list, indentFirstBreakSpec]
  split
  · rw [String.ext_iff]
    simp [String.data_append]
  · obtain ⟨data⟩ := s
    rfl

theorem foldl_nl_eq_intercalate (rest : List String) :
    ∀ s, rest.foldl (fun str x => str ++ "\n" ++ x) s = intercalateNl (s :: rest) := by
  induction rest with
  | nil => intro s; rfl
  | cons x xs ih =>
    intro s
    simp only [List.foldl_cons]
    rw [ih (s ++ "\n" ++ x)]
    cases xs with
    | nil => rfl
    | cons y ys =>
      show _ ++ "\n" ++ intercalateNl (y :: ys) = _ ++ "\n" ++ (_ ++ "\n" ++ intercalateNl (y :: ys))
      rw [String.ext_iff]
      simp [String.data_append]

/-- Claim C2, counterexample: a list whose single item joins to a text
with two internal line breaks serializes with only the first break
indented; the second break is emitted without the two spaces, contrary
to the claim that all internal breaks are indented.  The offending
item is reachable by parsing. -/
theorem list_toString_second_break_not_indented :
    TextSpan.new "a\nb\nc" = .ok ⟨"a\nb\nc"⟩ ∧
    parseDescription "* a\n  b\n  c" = .ok ⟨[.list [[.textSpan ⟨"a\nb\nc"⟩]]]⟩ ∧
    listToString [[.textSpan ⟨"a\nb\nc"⟩]] = "\n* a\n  b\nc\n" ∧
    listToString [[.textSpan ⟨"a\nb\nc"⟩]] ≠ "\n* a\n  b\n  c\n" := by
  refine ⟨by decide, by decide, by decide, by decide⟩

/-- Claim C2 (amended): for every List, serialization yields a line
break, then the items joined by single line breaks, each rendered as an
asterisk and a space followed by the item's joined inline
serializations with only the FIRST internal line break indented by two
spaces (two spaces are inserted after the first line-feed character of
the item's joined text, if any; later internal line breaks are emitted
without indentation), then a trailing line break. -/
theorem list_toString_first_break_only :
    ∀ items : List (List DescriptionInlineElement),
      listToString items =
        "\n" ++ intercalateNl (items.map fun item =>
          "* " ++ indentFirstBreakSpec (joinInline item)) ++ "\n" := by
  intro items
  unfold listToString
  have hmap : items.map (fun item => "* " ++ String.mk (replaceFirstNl (joinInline item).data)) =
      items.map (fun item => "* " ++ indentFirstBreakSpec (joinInline item)) := by
    exact List.map_congr_left (fun item _ => by rw [replaceFirstNl_eq_spec])
  rw [hmap]
  cases h : items.map (fun item => "* " ++ indentFirstBreakSpec (joinInline item)) with
  | nil => rfl
  | cons x xs =>
    show "\n" ++ List.foldl (fun str x => str ++ "\n" ++ x) x xs ++ "\n" = _
    rw [foldl_nl_eq_intercalate]

/-- Specification-side recursion for the span optimizer, following the
corrected description of the behavior: the running element `lastEl` is
always kept; a following non-empty text span merges into a trailing
text span through the `TextSpan` constructor (re-normalizing whitespace
across the boundary, and failing when a trailing and a leading line
feed meet); a following empty text span is dropped; a command span (or
a text span following a command span) ends the current run and is
processed as the new running element. -/
def optimizeGo (lastEl : DescriptionInlineElement) :
    List DescriptionInlineElement → Except Err (List DescriptionInlineElement)
  | [] => .ok [lastEl]
  | e :: rest =>
    match e with
    | .textSpan ts =>
      if ts.text ≠ "" then
        match lastEl with
        | .textSpan lastTs =>
          match TextSpan.new (lastTs.text ++ ts.text) with
          | .error err => .error err
          | .ok merged => optimizeGo (.textSpan merged) rest
        | .commandSpan _ _ =>
          match optimizeGo e rest with
          | .error err => .error err
          | .ok r => .ok (lastEl :: r)
      else optimizeGo lastEl rest
    | .commandSpan _ _ =>
      match optimizeGo e rest with
      | .error err => .error err
      | .ok r => .ok (lastEl :: r)

/-- Specification-side optimizer: an empty sequence maps to itself, a
non-empty one is processed by `optimizeGo` starting from its first
element (which is therefore always kept, even as an empty text
span). -/
def optimizeElementsSpec :
    List DescriptionInlineElement → Except Err (List DescriptionInlineElement)
  | [] => .ok []
  | e :: rest => optimizeGo e rest

/-- The command-span content of an inline element, if any. -/
def commandOf : DescriptionInlineElement → Option (CommandSpanType × TextSpan)
  | .textSpan _ => none
  | .commandSpan t ts => some (t, ts)

theorem optimizeGo_nil (lastEl : DescriptionInlineElement) :
    optimizeGo lastEl [] = .ok [lastEl] := rfl

theorem optimizeGo_text_empty (lastEl : DescriptionInlineElement) (ts : TextSpan)
    (rest : List DescriptionInlineElement) (h : ts.text = "") :
    optimizeGo lastEl (.textSpan ts :: rest) = optimizeGo lastEl rest := by
  simp only [optimizeGo, h, ne_eq, not_true_eq_false, if_false]

theorem optimizeGo_text_merge (lastTs ts : TextSpan)
    (rest : List DescriptionInlineElement) (h : ts.text ≠ "") :
    optimizeGo (.textSpan lastTs) (.textSpan ts :: rest) =
      match TextSpan.new (lastTs.text ++ ts.text) with
      | .error err => .error err
      | .ok merged => optimizeGo (.textSpan merged) rest := by
  simp only [optimizeGo, h, ne_eq, not_false_eq_true, if_true]

theorem optimizeGo_text_after_command (t2 : CommandSpanType) (ts2 ts : TextSpan)
    (rest : List DescriptionInlineElement) (h : ts.text ≠ "") :
    optimizeGo (.commandSpan t2 ts2) (.textSpan ts :: rest) =
      (optimizeGo (.textSpan ts) rest).map
        (fun r => .commandSpan t2 ts2 :: r) := by
  cases hgo : optimizeGo (.textSpan ts) rest with
  | error err => simp only [optimizeGo, h, ne_eq, not_false_eq_true, if_true, hgo]; rfl
  | ok r => simp only [optimizeGo, h, ne_eq, not_false_eq_true, if_true, hgo]; rfl

theorem optimizeGo_command (lastEl : DescriptionInlineElement) (t2 : CommandSpanType)
    (ts2 : TextSpan) (rest : List DescriptionInlineElement) :
    optimizeGo lastEl (.commandSpan t2 ts2 :: rest) =
      (optimizeGo (.commandSpan t2 ts2) rest).map (fun r => lastEl :: r) := by
  cases hgo : optimizeGo (.commandSpan t2 ts2) rest with
  | error err => simp only [optimizeGo, hgo]; rfl
  | ok r => simp only [optimizeGo, hgo]; rfl

theorem optimizeStep_concat (front : List DescriptionInlineElement)
    (lastEl e : DescriptionInlineElement) :
    optimizeStep (front ++ [lastEl]) e =
      match e with
      | .textSpan ts =>
        if ts.text ≠ "" then
          match lastEl with
          | .textSpan lastTs =>
            match TextSpan.new (lastTs.text ++ ts.text) with
            | .error err => .error err
            | .ok merged => .ok (front ++ [.textSpan merged])
          | .commandSpan _ _ => .ok ((front ++ [lastEl]) ++ [e])
        else .ok (front ++ [lastEl])
      | .commandSpan _ _ => .ok ((front ++ [lastEl]) ++ [e]) := by
  unfold optimizeStep
  rw [List.getLast?_concat]
  cases e with
  | textSpan ts =>
    by_cases hts : ts.text = ""
    · simp [hts]
    · cases lastEl with
      | textSpan lastTs =>
        simp only [hts, ne_eq, not_false_eq_true, if_true]
        rw [List.dropLast_concat]
      | commandSpan t2 ts2 => simp [hts]
  | commandSpan t2 ts2 => rfl

theorem optimize_fold_eq (rest : List DescriptionInlineElement) :
    ∀ (front : List DescriptionInlineElement) (lastEl : DescriptionInlineElement),
      List.foldlM optimizeStep (front ++ [lastEl]) rest =
        (optimizeGo lastEl rest).map (fun r => front ++ r) := by
  induction rest with
  | nil =>
    intro front lastEl
    rw [List.foldlM_nil, optimizeGo_nil]
    rfl
  | cons e rest ih =>
    intro front lastEl
    rw [List.foldlM_cons, optimizeStep_concat]
    cases e with
    | textSpan ts =>
      by_cases hts : ts.text = ""
      · rw [optimizeGo_text_empty lastEl ts rest hts]
        simp only [hts, ne_eq, not_true_eq_false, if_false, ite_false]
        exact ih front lastEl
      · cases lastEl with
        | textSpan lastTs =>
          rw [optimizeGo_text_merge lastTs ts rest hts]
          simp only [hts, ne_eq, not_false_eq_true, if_true]
          cases TextSpan.new (lastTs.text ++ ts.text) with
          | error err => rfl
          | ok merged =>
            show List.foldlM optimizeStep (front ++ [DescriptionInlineElement.textSpan merged]) rest = _
            exact ih front (DescriptionInlineElement.textSpan merged)
        | commandSpan t2 ts2 =>
          rw [optimizeGo_text_after_command t2 ts2 ts rest hts]
          simp only [hts, ne_eq, not_false_eq_true, if_true]
          show List.foldlM optimizeStep ((front ++ [DescriptionInlineElement.commandSpan t2 ts2]) ++ [DescriptionInlineElement.textSpan ts]) rest = _
          rw [ih (front ++ [DescriptionInlineElement.commandSpan t2 ts2]) (DescriptionInlineElement.textSpan ts)]
          cases optimizeGo (DescriptionInlineElement.textSpan ts) rest with
          | error err => rfl
          | ok r =>
            show Except.ok ((front ++ [DescriptionInlineElement.commandSpan t2 ts2]) ++ r) = Except.ok (front ++ (DescriptionInlineElement.commandSpan t2 ts2 :: r))
            rw [List.append_assoc]
            rfl
    | commandSpan t2 ts2 =>
      rw [optimizeGo_command lastEl t2 ts2 rest]
      show List.foldlM optimizeStep ((front ++ [lastEl]) ++ [DescriptionInlineElement.commandSpan t2 ts2]) rest = _
      rw [ih (front ++ [lastEl]) (DescriptionInlineElement.commandSpan t2 ts2)]
      cases optimizeGo (DescriptionInlineElement.commandSpan t2 ts2) rest with
      | error err => rfl
      | ok r =>
        show Except.ok ((front ++ [lastEl]) ++ r) = Except.ok (front ++ (lastEl :: r))
        rw [List.append_assoc]
        rfl

theorem optimizeGo_commands (rest : List DescriptionInlineElement) :
    ∀ (lastEl : DescriptionInlineElement) (r : List DescriptionInlineElement),
      optimizeGo lastEl rest = .ok r →
      r.filterMap commandOf = (lastEl :: rest).filterMap commandOf := by
  induction rest with
  | nil =>
    intro lastEl r h
    rw [optimizeGo_nil] at h
    injection h with h2
    rw [← h2]
  | cons e rest ih =>
    intro lastEl r h
    cases e with
    | textSpan ts =>
      by_cases hts : ts.text = ""
      · rw [optimizeGo_text_empty lastEl ts rest hts] at h
        rw [ih lastEl r h]
        cases lastEl <;> simp [List.filterMap_cons, commandOf]
      · cases lastEl with
        | textSpan lastTs =>
          rw [optimizeGo_text_merge lastTs ts rest hts] at h
          cases hnew : TextSpan.new (lastTs.text ++ ts.text) with
          | error err =>
            rw [hnew] at h
            exact absurd h (by simp)
          | ok merged =>
            rw [hnew] at h
            rw [ih (DescriptionInlineElement.textSpan merged) r h]
            simp [List.filterMap_cons, commandOf]
        | commandSpan t2 ts2 =>
          rw [optimizeGo_text_after_command t2 ts2 ts rest hts] at h
          cases hgo : optimizeGo (DescriptionInlineElement.textSpan ts) rest with
          | error err =>
            rw [hgo] at h
            exact absurd h (by simp [Except.map])
          | ok r2 =>
            rw [hgo] at h
            simp only [Except.map] at h
            injection h with h2
            rw [← h2]
            have hr2 := ih (DescriptionInlineElement.textSpan ts) r2 hgo
            simp only [List.filterMap_cons, commandOf] at hr2 ⊢
            rw [hr2]
    | commandSpan t2 ts2 =>
      rw [optimizeGo_command lastEl t2 ts2 rest] at h
      cases hgo : optimizeGo (DescriptionInlineElement.commandSpan t2 ts2) rest with
      | error err =>
        rw [hgo] at h
        exact absurd h (by simp [Except.map])
      | ok r2 =>
        rw [hgo] at h
        simp only [Except.map] at h
        injection h with h2
        rw [← h2]
        have hr2 := ih (DescriptionInlineElement.commandSpan t2 ts2) r2 hgo
        cases lastEl <;>
          simp only [List.filterMap_cons, commandOf] at hr2 ⊢ <;>
          rw [hr2]

/-- Claim C3, counterexample: the span optimizer does not drop an empty
TextSpan occurring as the first element (the claim says it is dropped
wherever it occurs); a merged TextSpan is re-normalized through the
constructor, so its text is NOT the character-for-character
concatenation of the run (two boundary whitespace characters collapse);
and merging can even fail outright when a trailing and a leading line
feed meet, in which case no sequence is returned at all. -/
theorem optimizeElements_counterexample :
    optimizeElements [.textSpan ⟨""⟩] = .ok [.textSpan ⟨""⟩] ∧
    optimizeElements [.textSpan ⟨""⟩] ≠ .ok [] ∧
    optimizeElements [.textSpan ⟨"a "⟩, .textSpan ⟨" b"⟩] = .ok [.textSpan ⟨"a b"⟩] ∧
    optimizeElements [.textSpan ⟨"a "⟩, .textSpan ⟨" b"⟩] ≠ .ok [.textSpan ⟨"a  b"⟩] ∧
    optimizeElements [.textSpan ⟨"a\n"⟩, .textSpan ⟨"\nb"⟩] = .error .multipleLineBreaks := by
  refine ⟨by decide, by decide, by decide, by decide, by decide⟩

/-- Claim C3 (amended): the span optimizer equals the specification
recursion `optimizeElementsSpec`: every maximal run of adjacent
non-empty TextSpans is merged into a single TextSpan built by
re-normalizing the concatenations through the TextSpan constructor
(whitespace runs spanning a boundary are re-collapsed rather than kept
character for character, and the merge fails when two line feeds meet),
every empty TextSpan is dropped EXCEPT one occurring as the very first
element (which is kept and may absorb following text), CommandSpans
pass through unchanged, relative order is preserved, and merging never
crosses a CommandSpan boundary; in particular, on success the command
spans of the result are exactly those of the input, in order. -/
theorem optimizeElements_spec :
    (∀ elements, optimizeElements elements = optimizeElementsSpec elements) ∧
    (∀ elements result, optimizeElements elements = .ok result →
      result.filterMap commandOf = elements.filterMap commandOf) := by
  have heq : ∀ elements, optimizeElements elements = optimizeElementsSpec elements := by
    intro elements
    cases elements with
    | nil => rfl
    | cons e rest =>
      unfold optimizeElements optimizeElementsSpec
      rw [List.foldlM_cons]
      show List.foldlM optimizeStep ([] ++ [e]) rest = optimizeGo e rest
      rw [optimize_fold_eq rest [] e]
      cases optimizeGo e rest with
      | error err => rfl
      | ok r =>
        show Except.ok ([] ++ r) = Except.ok r
        rw [List.nil_append]
  refine ⟨heq, ?_⟩
  intro elements result h
  rw [heq] at h
  cases elements with
  | nil =>
    injection h with h2
    rw [← h2]
  | cons e rest => exact optimizeGo_commands rest e result h

/-- Witness for the amended claim C3 at a concrete input: an interior
empty TextSpan is dropped while the command span and its neighbors
survive, and the command spans are preserved. -/
theorem optimizeElements_spec_witness :
    optimizeElements
        [.textSpan ⟨"p"⟩, .commandSpan .CODE ⟨"x"⟩, .textSpan ⟨""⟩, .textSpan ⟨"q"⟩] =
      .ok [.textSpan ⟨"p"⟩, .commandSpan .CODE ⟨"x"⟩, .textSpan ⟨"q"⟩] ∧
    ([.textSpan ⟨"p"⟩, .commandSpan .CODE ⟨"x"⟩, .textSpan ⟨"q"⟩] :
        List DescriptionInlineElement).filterMap commandOf =
      ([.textSpan ⟨"p"⟩, .commandSpan .CODE ⟨"x"⟩, .textSpan ⟨""⟩, .textSpan ⟨"q"⟩] :
        List DescriptionInlineElement).filterMap commandOf :=
  ⟨by decide, optimizeElements_spec.2 _ _ (by decide)⟩

/-- Claim C7: for every input string whose parse succeeds and
serializes back to exactly the input (a canonical document), parsing
that serialization again and serializing the result reproduces the same
text exactly. -/
theorem parse_serialize_idempotent :
    ∀ (s : String) (d : Description),
      parseDescription s = .ok d → d.toStr = s →
      ∃ d2 : Description, parseDescription d.toStr = .ok d2 ∧ d2.toStr = d.toStr := by
  intro s d h1 h2
  refine ⟨d, ?_, rfl⟩
  rw [h2]
  exact h1

/-- Witness for claim C7 at a concrete canonical input. -/
theorem parse_serialize_idempotent_witness :
    ∃ d2 : Description,
      parseDescription (Description.toStr ⟨[.paragraph [.textSpan ⟨"hello"⟩]]⟩) = .ok d2 ∧
      d2.toStr = Description.toStr ⟨[.paragraph [.textSpan ⟨"hello"⟩]]⟩ :=
  parse_serialize_idempotent "hello" ⟨[.paragraph [.textSpan ⟨"hello"⟩]]⟩
    (by decide) (by decide)

/-- Claim C8: parsing the input consisting of an open brace, the token
zzz, a space, the word text and a close brace does not return a
Document: both the whole-document parser and the inline scanner abort
with the unknown-command error carrying the offending token, and no
partial tree is produced (the error is the entire result). -/
theorem parse_unknown_command :
    parseDescription "\x7bzzz text\x7d" = .error (.unknownCommand "zzz") ∧
    parseInlineElementes "\x7bzzz text\x7d" = .error (.unknownCommand "zzz") := by
  refine ⟨by decide, by decide⟩

/-- Claim C9: parsing the input open brace, p, space, close brace
succeeds and yields a single CommandSpan of type PROPER_NAME whose
content TextSpan holds the empty string (the whitespace after the token
is consumed and discarded, and empty content is valid), and serializing
that span produces the two-character string open brace, p, close brace
with no space before the closing brace. -/
theorem parse_empty_content_roundtrip :
    parseDescription "\x7bp \x7d" =
      .ok ⟨[.paragraph [.commandSpan .PROPER_NAME ⟨""⟩]]⟩ ∧
    parseInlineElementes "\x7bp \x7d" = .ok [.commandSpan .PROPER_NAME ⟨""⟩] ∧
    commandSpanToString .PROPER_NAME ⟨""⟩ = "\x7bp\x7d" := by
  refine ⟨by decide, by decide, by decide⟩

theorem three_space_prefix_eq (rest : List Char) :
    [' ', ' ', ' '].isPrefixOf (' ' :: ' ' :: rest) = [' '].isPrefixOf rest := rfl

/-- Claim C6: during block parsing, a line beginning with two leading
spaces while a List is the open accumulator is appended as a
continuation of the last item of that list — it does not close the
list, open a paragraph, or touch the flushed blocks — and a line-break
TextSpan marker is inserted before the appended elements exactly when
that item already holds at least one element and the line does not
begin with three or more leading spaces (that is, the remainder after
the two leading spaces does not itself start with a space). -/
theorem processLine_list_continuation :
    ∀ (para : Option (List DescriptionInlineElement))
      (blocks : List DescriptionBlockElement)
      (init : List (List DescriptionInlineElement))
      (lastItem : List DescriptionInlineElement)
      (rest : List Char) (els : List DescriptionInlineElement),
      parseInlineElementes (String.mk rest) = .ok els →
      processLine ⟨para, some (init ++ [lastItem]), blocks⟩ (' ' :: ' ' :: rest) =
        .ok ⟨para, some (init ++ [lastItem ++
          (if lastItem ≠ [] ∧ ¬ [' '].isPrefixOf rest then [.textSpan ⟨"\n"⟩] else []) ++ els]),
          blocks⟩ := by
  intro para blocks init lastItem rest els hparse
  unfold processLine
  rw [if_neg (by simp [List.isPrefixOf])]
  rw [if_pos (by exact ⟨rfl, by simp [List.isPrefixOf]⟩)]
  have hcond : (0 < lastItem.length ∧
      ¬ ([' ', ' ', ' '].isPrefixOf (' ' :: ' ' :: rest) = true)) ↔
      (lastItem ≠ [] ∧ ¬ ([' '].isPrefixOf rest = true)) := by
    rw [three_space_prefix_eq, List.length_pos]
  have hnl : TextSpan.new "\n" = .ok ⟨"\n"⟩ := by decide
  have hdrop : (' ' :: ' ' :: rest).drop 2 = rest := rfl
  by_cases hmark : lastItem ≠ [] ∧ ¬ ([' '].isPrefixOf rest = true)
  · rw [if_pos hmark]
    simp only [List.getLast?_concat, if_pos (hcond.mpr hmark), hnl, Except.map,
      hdrop, hparse, List.dropLast_concat, List.append_assoc]
  · rw [if_neg hmark]
    simp only [List.getLast?_concat, if_neg (fun hx => hmark (hcond.mp hx)), hnl,
      hdrop, hparse, List.dropLast_concat, List.nil_append, List.append_assoc]

/-- Witness for claim C6 at a concrete state and line: a continuation
line with content b is appended to the open item holding a, with the
line-break marker in between. -/
theorem processLine_list_continuation_witness :
    processLine ⟨none, some [[.textSpan ⟨"a"⟩]], []⟩ (' ' :: ' ' :: ['b']) =
      .ok ⟨none, some [[.textSpan ⟨"a"⟩, .textSpan ⟨"\n"⟩, .textSpan ⟨"b"⟩]], []⟩ := by
  have h := processLine_list_continuation none [] [] [.textSpan ⟨"a"⟩] ['b']
    [.textSpan ⟨"b"⟩] (by decide)
  rw [if_pos (by decide)] at h
  simpa using h

theorem takeWhile_dropWhile_append {α : Type} (p : α → Bool) :
    ∀ (xs : List α), xs.dropWhile p ≠ [] → ∀ ys : List α,
      (xs ++ ys).takeWhile p = xs.takeWhile p ∧
      (xs ++ ys).dropWhile p = xs.dropWhile p ++ ys := by
  intro xs
  induction xs with
  | nil => intro h; exact absurd rfl h
  | cons x xs ih =>
    intro h ys
    by_cases hp : p x
    · rw [List.dropWhile_cons_of_pos hp] at h
      have hrec := ih h ys
      constructor
      · rw [List.cons_append, List.takeWhile_cons_of_pos hp,
          List.takeWhile_cons_of_pos hp, hrec.1]
      · rw [List.cons_append, List.dropWhile_cons_of_pos hp,
          List.dropWhile_cons_of_pos hp, hrec.2]
    · constructor
      · rw [List.cons_append, List.takeWhile_cons_of_neg hp,
          List.takeWhile_cons_of_neg hp]
      · rw [List.cons_append, List.dropWhile_cons_of_neg hp,
          List.dropWhile_cons_of_neg hp]
        rfl

theorem dropWhile_length_le {α : Type} (p : α → Bool) (xs : List α) :
    (xs.dropWhile p).length ≤ xs.length := by
  induction xs with
  | nil => simp
  | cons x xs ih =>
    by_cases hp : p x
    · rw [List.dropWhile_cons_of_pos hp]
      exact Nat.le_trans ih (Nat.le_succ _)
    · rw [List.dropWhile_cons_of_neg hp]

theorem scanAux_succ_nil (fp : Nat) (ct : Option CommandSpanType) (text : String)
    (els : List DescriptionInlineElement) :
    scanAux (fp + 1) [] ct text els =
      match ct with
      | some _ => .error .unclosedCommand
      | none => pushTextSpan text els := rfl

theorem scanAux_succ_cons (fp : Nat) (c : Char) (rest : List Char)
    (ct : Option CommandSpanType) (text : String) (els : List DescriptionInlineElement) :
    scanAux (fp + 1) (c :: rest) ct text els =
      (if ct = none ∧ c = '{' then
        match pushTextSpan text els with
        | .error e => .error e
        | .ok elements =>
          let commandStr := rest.takeWhile tokenChar
          let rest2 := rest.dropWhile tokenChar
          if commandStr.isEmpty then .error .bracesWithoutCommand
          else
            let rest3 := rest2.dropWhile isJsWhitespace
            match CommandSpanType.fromCommand (String.mk commandStr) with
            | none => .error (.unknownCommand (String.mk commandStr))
            | some ty => scanAux fp rest3 (some ty) "" elements
      else
        match ct with
        | some ty =>
          if c = '}' then
            match TextSpan.new text with
            | .error e => .error e
            | .ok ts => scanAux fp rest none "" (els ++ [.commandSpan ty ts])
          else
            match rest with
            | escChar :: rest2 =>
              if c = '\\' ∧ (escChar = '\\' ∨ escChar = '{' ∨ escChar = '}') then
                scanAux fp rest2 (some ty) (text.push escChar) els
              else
                scanAux fp rest (some ty) (text.push c) els
            | [] => scanAux fp rest (some ty) (text.push c) els
        | none => scanAux fp rest none (text.push c) els) := rfl

theorem scan_brace_nil (ct : Option CommandSpanType) (text : String)
    (els r : List DescriptionInlineElement) (f g : Nat) (hf : 0 < f) (hg : 1 < g)
    (hok : scanAux f [] ct text els = .ok r) :
    scanAux g ['{'] ct text els = .error .bracesWithoutCommand := by
  cases f with
  | zero => omega
  | succ fp =>
    cases ct with
    | some ty =>
      rw [scanAux_succ_nil] at hok
      simp at hok
    | none =>
      cases g with
      | zero => omega
      | succ gp =>
        rw [scanAux_succ_nil] at hok
        have hok2 : pushTextSpan text els = .ok r := hok
        rw [scanAux_succ_cons, if_pos ⟨rfl, rfl⟩, hok2]
        rfl

theorem scanAux_open (fp : Nat) (rest : List Char) (text : String)
    (els : List DescriptionInlineElement) :
    scanAux (fp + 1) ('{' :: rest) none text els =
      match pushTextSpan text els with
      | .error e => .error e
      | .ok elements =>
        if (rest.takeWhile tokenChar).isEmpty then .error .bracesWithoutCommand
        else
          match CommandSpanType.fromCommand (String.mk (rest.takeWhile tokenChar)) with
          | none => .error (.unknownCommand (String.mk (rest.takeWhile tokenChar)))
          | some ty =>
            scanAux fp ((rest.dropWhile tokenChar).dropWhile isJsWhitespace)
              (some ty) "" elements := rfl

theorem scanAux_some_close (fp : Nat) (rest : List Char) (ty : CommandSpanType)
    (text : String) (els : List DescriptionInlineElement) :
    scanAux (fp + 1) ('}' :: rest) (some ty) text els =
      match TextSpan.new text with
      | .error e => .error e
      | .ok ts => scanAux fp rest none "" (els ++ [.commandSpan ty ts]) := rfl

theorem scanAux_some_noclose_nil (fp : Nat) (c : Char) (ty : CommandSpanType)
    (text : String) (els : List DescriptionInlineElement) (hc : ¬ c = '}') :
    scanAux (fp + 1) [c] (some ty) text els =
      scanAux fp [] (some ty) (text.push c) els := by
  rw [scanAux_succ_cons, if_neg (by simp)]
  simp only []
  rw [if_neg hc]

theorem scanAux_some_noclose_esc (fp : Nat) (c e : Char) (rest2 : List Char)
    (ty : CommandSpanType) (text : String) (els : List DescriptionInlineElement)
    (hc : ¬ c = '}') (hesc : c = '\\' ∧ (e = '\\' ∨ e = '{' ∨ e = '}')) :
    scanAux (fp + 1) (c :: e :: rest2) (some ty) text els =
      scanAux fp rest2 (some ty) (text.push e) els := by
  rw [scanAux_succ_cons, if_neg (by simp)]
  simp only []
  rw [if_neg hc]
  rw [if_pos hesc]

theorem scanAux_some_noclose_noesc (fp : Nat) (c e : Char) (rest2 : List Char)
    (ty : CommandSpanType) (text : String) (els : List DescriptionInlineElement)
    (hc : ¬ c = '}') (hesc : ¬ (c = '\\' ∧ (e = '\\' ∨ e = '{' ∨ e = '}'))) :
    scanAux (fp + 1) (c :: e :: rest2) (some ty) text els =
      scanAux fp (e :: rest2) (some ty) (text.push c) els := by
  rw [scanAux_succ_cons, if_neg (by simp)]
  simp only []
  rw [if_neg hc]
  rw [if_neg hesc]

theorem scanAux_none_plain (fp : Nat) (c : Char) (rest : List Char)
    (text : String) (els : List DescriptionInlineElement) (hc : ¬ c = '{') :
    scanAux (fp + 1) (c :: rest) none text els =
      scanAux fp rest none (text.push c) els := by
  rw [scanAux_succ_cons, if_neg (by simp [hc])]

theorem scan_append_brace (n : Nat) :
    ∀ (l : List Char), l.length ≤ n →
    ∀ (ct : Option CommandSpanType) (text : String)
      (els r : List DescriptionInlineElement) (f g : Nat),
      l.length < f → l.length + 1 < g →
      scanAux f l ct text els = .ok r →
      scanAux g (l ++ ['{']) ct text els = .error .bracesWithoutCommand := by
  induction n with
  | zero =>
    intro l hl ct text els r f g hf hg hok
    have hl0 : l = [] := by
      cases l with
      | nil => rfl
      | cons c rest => simp at hl
    subst hl0
    exact scan_brace_nil ct text els r f g hf hg hok
  | succ n ih =>
    intro l hl ct text els r f g hf hg hok
    cases l with
    | nil => exact scan_brace_nil ct text els r f g hf hg hok
    | cons c rest =>
      have hrest : rest.length ≤ n := by
        simp only [List.length_cons] at hl
        omega
      cases f with
      | zero => exact absurd hf (by omega)
      | succ fp =>
        cases g with
        | zero => exact absurd hg (by omega)
        | succ gp =>
          have hflen : rest.length < fp := by
            simp only [List.length_cons] at hf
            omega
          have hglen : rest.length + 1 < gp := by
            simp only [List.length_cons] at hg
            omega
          cases ct with
          | none =>
            by_cases hcb : c = '{'
            · subst hcb
              rw [scanAux_open] at hok
              rw [List.cons_append, scanAux_open]
              cases hpush : pushTextSpan text els with
              | error e =>
                rw [hpush] at hok
                simp at hok
              | ok els1 =>
                rw [hpush] at hok
                simp only [] at hok ⊢
                by_cases htok : (rest.takeWhile tokenChar).isEmpty = true
                · rw [if_pos htok] at hok
                  simp at hok
                · rw [if_neg htok] at hok
                  cases hcmd : CommandSpanType.fromCommand
                      (String.mk (rest.takeWhile tokenChar)) with
                  | none =>
                    rw [hcmd] at hok
                    simp at hok
                  | some ty =>
                    rw [hcmd] at hok
                    have hok2 : scanAux fp
                        ((rest.dropWhile tokenChar).dropWhile isJsWhitespace)
                        (some ty) "" els1 = Except.ok r := hok
                    have hd : rest.dropWhile tokenChar ≠ [] := by
                      intro hdnil
                      rw [hdnil, List.dropWhile_nil] at hok2
                      cases fp with
                      | zero => exact absurd hflen (by omega)
                      | succ fq =>
                        rw [scanAux_succ_nil] at hok2
                        simp at hok2
                    have hr3 : (rest.dropWhile tokenChar).dropWhile isJsWhitespace ≠ [] := by
                      intro hnil
                      rw [hnil] at hok2
                      cases fp with
                      | zero => exact absurd hflen (by omega)
                      | succ fq =>
                        rw [scanAux_succ_nil] at hok2
                        simp at hok2
                    have hr3len :
                        ((rest.dropWhile tokenChar).dropWhile isJsWhitespace).length ≤
                          rest.length :=
                      Nat.le_trans (dropWhile_length_le _ _) (dropWhile_length_le _ _)
                    rw [(takeWhile_dropWhile_append tokenChar rest hd ['{']).1,
                      (takeWhile_dropWhile_append tokenChar rest hd ['{']).2,
                      if_neg htok,
                      (takeWhile_dropWhile_append isJsWhitespace
                        (rest.dropWhile tokenChar) hr3 ['{']).2,
                      hcmd]
                    exact ih ((rest.dropWhile tokenChar).dropWhile isJsWhitespace)
                      (by omega) (some ty) "" els1 r fp gp (by omega) (by omega) hok2
            · rw [scanAux_none_plain fp c rest text els hcb] at hok
              rw [List.cons_append, scanAux_none_plain gp c (rest ++ ['{']) text els hcb]
              exact ih rest hrest none (text.push c) els r fp gp hflen hglen hok
          | some ty =>
            by_cases hc2 : c = '}'
            · subst hc2
              rw [scanAux_some_close] at hok
              rw [List.cons_append, scanAux_some_close]
              cases hnew : TextSpan.new text with
              | error e =>
                rw [hnew] at hok
                simp at hok
              | ok ts =>
                rw [hnew] at hok
                have hok2 : scanAux fp rest none ""
                    (els ++ [.commandSpan ty ts]) = Except.ok r := hok
                exact ih rest hrest none "" (els ++ [.commandSpan ty ts]) r fp gp
                  hflen hglen hok2
            · cases rest with
              | nil =>
                rw [scanAux_some_noclose_nil fp c ty text els hc2] at hok
                cases fp with
                | zero => exact absurd hflen (by omega)
                | succ fq =>
                  rw [scanAux_succ_nil] at hok
                  simp at hok
              | cons e rest2 =>
                have hr2n : rest2.length + 1 ≤ n := by simpa using hrest
                have hr2f : rest2.length + 1 < fp := by simpa using hflen
                have hr2g : rest2.length + 2 < gp := by simpa using hglen
                by_cases hesc : c = '\\' ∧ (e = '\\' ∨ e = '{' ∨ e = '}')
                · rw [scanAux_some_noclose_esc fp c e rest2 ty text els hc2 hesc] at hok
                  rw [List.cons_append, List.cons_append,
                    scanAux_some_noclose_esc gp c e (rest2 ++ ['{']) ty text els hc2 hesc]
                  exact ih rest2 (by omega) (some ty) (text.push e) els r fp gp
                    (by omega) (by omega) hok
                · rw [scanAux_some_noclose_noesc fp c e rest2 ty text els hc2 hesc] at hok
                  rw [List.cons_append, List.cons_append,
                    scanAux_some_noclose_noesc gp c e (rest2 ++ ['{']) ty text els hc2 hesc]
                  exact ih (e :: rest2) hrest (some ty) (text.push c) els r fp gp
                    hflen hglen hok

/-- Claim C10, counterexample: a line whose final character is an open
brace does NOT always fail with the braces-without-command error: when
that final brace sits inside a still-open command body (here the line
open brace, e, space, x, open brace), the scanner consumes it as plain
content and fails with the unclosed-command error instead. -/
theorem trailing_brace_in_command_counterexample :
    parseInlineElementes "\x7be x\x7b" = .error .unclosedCommand ∧
    parseInlineElementes "\x7be x\x7b" ≠ .error .bracesWithoutCommand := by
  refine ⟨by decide, by decide⟩

/-- Claim C10 (amended): for every line that the inline parser accepts
without error (so its final state is plain text, every command closed),
appending a single open brace makes the parse fail with the
braces-without-command error (end of line reached while reading the
command token is reported as an empty token); when the final open brace
instead falls inside an unclosed command body it is consumed as content
and the error is unclosed-command, as the counterexample shows. -/
theorem trailing_brace_braces_without_command :
    ∀ (p : String) (r : List DescriptionInlineElement),
      parseInlineElementes p = .ok r →
      parseInlineElementes (p ++ "\x7b") = .error .bracesWithoutCommand := by
  intro p r hok
  unfold parseInlineElementes at hok ⊢
  rw [String.data_append]
  have hbd : ("\x7b" : String).data = ['{'] := rfl
  rw [hbd]
  have hlen : (p.data ++ ['{']).length = p.data.length + 1 := by simp
  rw [hlen]
  exact scan_append_brace p.data.length p.data (Nat.le_refl _) none "" [] r
    (p.data.length + 1) (p.data.length + 2) (by omega) (by omega) hok

/-- Witness for the amended claim C10 at a concrete accepted line. -/
theorem trailing_brace_braces_without_command_witness :
    parseInlineElementes ("a" ++ "\x7b") = .error .bracesWithoutCommand :=
  trailing_brace_braces_without_command "a" [.textSpan ⟨"a"⟩] (by decide)
